import Mathlib

/-!
Shallow embedding of `src/portfolio_resume_ai_agent.py` (the resume sync
agent) and verification of its specification claims.

Modelling conventions:
* Python strings are `List Char` (`Str`), indexed by code points exactly as
  Python slicing and `str.find` are.
* `str.lower` is modelled character-wise with `Char.toLower` (ASCII case
  folding, which covers every character the program compares against).
* External collaborators are oracles: the `litellm.completion` endpoint is a
  function from the running call count to an attempt result, `PyPDF2` page
  extraction is a list of page texts, and `hashlib.sha256(...).hexdigest()`
  is an explicit function parameter `hashF` (the program only ever applies
  it; no claim depends on a particular digest value).
* The filesystem and operator interaction are explicit state: the target
  HTML file, the backup slot, the cache file and the queued `input()`
  answers are fields of `FlowState`.  The on-disk cache file is abstracted
  by its parse outcome: `none` = file absent, `some none` = present but
  unparseable, `some (some t)` = parses to table `t`.
-/

namespace ResumeAgent

/-- Python strings, as their sequence of code points. -/
abbrev Str := List Char

/-- Python `str.lower()`, character-wise (ASCII case folding). -/
def pyLower (s : Str) : Str := s.map Char.toLower

/-- Python `str.isspace` on the ASCII whitespace characters, used by `str.strip()`. -/
def pyIsSpace (c : Char) : Bool :=
  c == ' ' || c == '\t' || c == '\n' || c == '\r' || c == '\x0b' || c == '\x0c'

/-- Python `str.strip()`: drop leading and trailing whitespace. -/
def pyStrip (s : Str) : Str :=
  (((s.dropWhile pyIsSpace).reverse).dropWhile pyIsSpace).reverse

/-- Whether `n` is a prefix of `h` (first step of Python substring search). -/
def leadsWith : Str → Str → Bool
  | [], _ => true
  | _ :: _, [] => false
  | a :: as, b :: bs => a == b && leadsWith as bs

/-- Python `str.find`: index of the first occurrence of `n` in `h`, if any. -/
def firstIdx (n : Str) : Str → Option Nat
  | [] => if leadsWith n [] then some 0 else none
  | a :: t => if leadsWith n (a :: t) then some 0 else (firstIdx n t).map Nat.succ

/-- Python `n in h` substring membership. -/
def occursB (n h : Str) : Bool := (firstIdx n h).isSome

/-- Literal `"<!DOCTYPE html>"` from the validation check (line 269). -/
def doctypeNeedle : Str :=
  ['<', '!', 'D', 'O', 'C', 'T', 'Y', 'P', 'E', ' ', 'h', 't', 'm', 'l', '>']

/-- Lower-case doctype marker, as the spec's case-insensitive doctype reads. -/
def doctypeLowerNeedle : Str :=
  ['<', '!', 'd', 'o', 'c', 't', 'y', 'p', 'e', ' ', 'h', 't', 'm', 'l', '>']

/-- Literal `"<html"` from the validation checks (lines 269-272). -/
def htmlNeedle : Str := ['<', 'h', 't', 'm', 'l']

/-! ### JSON canonical serialization (`json.dumps(messages, sort_keys=True, ensure_ascii=False)`) -/

/-- Lower-case hexadecimal digit, as CPython's `\uXXXX` escapes print it. -/
def hexDigit (n : Nat) : Char :=
  match n with
  | 0 => '0' | 1 => '1' | 2 => '2' | 3 => '3' | 4 => '4'
  | 5 => '5' | 6 => '6' | 7 => '7' | 8 => '8' | 9 => '9'
  | 10 => 'a' | 11 => 'b' | 12 => 'c' | 13 => 'd' | 14 => 'e'
  | _ => 'f'

/-- Escape of one character inside a JSON string, per `json.dumps` with
`ensure_ascii=False`: quote, backslash and control characters are escaped,
everything else passes through verbatim. -/
def escChar (c : Char) : Str :=
  if c = '\x22' then ['\\', '\x22']
  else if c = '\\' then ['\\', '\\']
  else if c = '\n' then ['\\', 'n']
  else if c = '\t' then ['\\', 't']
  else if c = '\r' then ['\\', 'r']
  else if c = '\x08' then ['\\', 'b']
  else if c = '\x0c' then ['\\', 'f']
  else if c.toNat < 32 then ['\\', 'u', '0', '0', hexDigit (c.toNat / 16), hexDigit (c.toNat % 16)]
  else [c]

/-- Escape of a whole string inside JSON quotes. -/
def jsonEscape : Str → Str
  | [] => []
  | c :: t => escChar c ++ jsonEscape t

/-- JSON string literal: quoted escaped content. -/
def jsonQuote (s : Str) : Str := '\x22' :: (jsonEscape s ++ ['\x22'])

/-- Python code-point comparison `<=` on strings (lexicographic on `ord`). -/
def charsLe : Str → Str → Bool
  | [], _ => true
  | _ :: _, [] => false
  | a :: as, b :: bs =>
    if a.toNat < b.toNat then true
    else if b.toNat < a.toNat then false
    else charsLe as bs

/-- One message of the request: a Python dict in insertion order, i.e. an
association list from key to value (both strings). -/
abbrev Msg := List (Str × Str)

/-- The request: `List[Dict]` of role-tagged messages. -/
abbrev Messages := List Msg

/-- Stable insertion of a pair into a key-sorted pair list. -/
def insertPair (p : Str × Str) : Msg → Msg
  | [] => [p]
  | q :: qs => if charsLe p.1 q.1 then p :: q :: qs else q :: insertPair p qs

/-- Stable sort of a dict's items by key, as `json.dumps(..., sort_keys=True)`. -/
def sortPairs : Msg → Msg
  | [] => []
  | p :: ps => insertPair p (sortPairs ps)

/-- Join tail for `sep.join`: every further element is preceded by `sep`. -/
def sepJoinTail (sep : Str) : List Str → Str
  | [] => []
  | x :: xs => sep ++ x ++ sepJoinTail sep xs

/-- Python `sep.join(parts)`. -/
def sepJoin (sep : Str) : List Str → Str
  | [] => []
  | x :: xs => x ++ sepJoinTail sep xs

/-- Serialization of one `"key": "value"` item (default `': '` separator). -/
def serPair (p : Str × Str) : Str := jsonQuote p.1 ++ [':', ' '] ++ jsonQuote p.2

/-- Serialization of one message dict with keys sorted (default `', '` separator). -/
def serMsg (m : Msg) : Str :=
  '\x7b' :: (sepJoin [',', ' '] ((sortPairs m).map serPair) ++ ['\x7d'])

/-- Canonical serialization of the message list: the `key_src` string of
`cached_generate` (line 90). -/
def keySrc (msgs : Messages) : Str :=
  '[' :: (sepJoin [',', ' '] (msgs.map serMsg) ++ [']'])

/-- Cache fingerprint of a request (line 91): the external cryptographic hash
`hashF` (`hashlib.sha256(...).hexdigest()`) applied to the canonical
serialization. -/
def fingerprint (hashF : Str → Str) (msgs : Messages) : Str := hashF (keySrc msgs)

/-! ### Completion client with retry (`generate_response`, lines 52-71) -/

/-- Outcome of one remote `completion(...)` call: success with the returned
text, a transient `APIError`, or any other exception. -/
inductive AttemptRes
  | ok (s : Str)
  | apiErr
  | otherErr

/-- Retry loop body of `generate_response`: `calls` is the running count of
remote calls made by the process, `attempt` the 1-based loop counter,
`rem` the remaining loop iterations.  Returns the result (`none` models the
final `raise RuntimeError`), the list of backoff delays slept
(`time.sleep(3 * attempt)` after each transient error), and the new call
count. -/
def grLoop (o : Nat → AttemptRes) : Nat → Nat → Nat → Option Str × List Nat × Nat
  | calls, _, 0 => (none, [], calls)
  | calls, attempt, rem + 1 =>
    match o calls with
    | .ok s => (some s, [], calls + 1)
    | .apiErr =>
      match grLoop o (calls + 1) (attempt + 1) rem with
      | (r, sleeps, calls') => (r, (3 * attempt) :: sleeps, calls')
    | .otherErr => (none, [], calls + 1)

/-- Model of `generate_response(messages, retries=3)`: three attempts starting
at attempt number 1. -/
def generateResponse (o : Nat → AttemptRes) (calls : Nat) : Option Str × List Nat × Nat :=
  grLoop o calls 1 3

/-! ### Deterministic cache (`_load_cache`, `_save_cache`, `cached_generate`, lines 76-98) -/

/-- Persisted cache table: fingerprint to response text, in insertion order. -/
abbrev Table := List (Str × Str)

/-- First-match association lookup (Python dict lookup on a parsed table). -/
def lookupA (k : Str) : Table → Option Str
  | [] => none
  | (k', v) :: t => if k = k' then some v else lookupA k t

/-- Model of `_load_cache` (lines 76-83): an absent file and an unparseable
file both yield the empty table; otherwise the parsed table is returned. -/
def loadCache : Option (Option Table) → Table
  | some (some t) => t
  | _ => []

/-- Full state of one `update_resume_flow` run: the target HTML file content
(`none` = missing), the backup slot at `html_path + BACKUP_SUFFIX`, the PDF
(`none` = missing, otherwise its extracted page texts), the cache file (see
`loadCache`), the remote completion oracle with its running call count, and
the queued operator `input()` lines. -/
structure FlowState where
  htmlFile : Option Str
  backupFile : Option Str
  pdfFile : Option (List Str)
  cacheFile : Option (Option Table)
  oracle : Nat → AttemptRes
  genCalls : Nat
  stdin : List Str

/-- Model of `cached_generate` (lines 89-98): hash the canonical
serialization, return a stored response on a fingerprint hit without calling
the remote endpoint; on a miss call `generate_response`, store the new pair
and persist the table.  A raised `RuntimeError` is `none` (the cache is not
written then, since the exception fires before the assignment). -/
def cachedGenerate (hashF : Str → Str) (msgs : Messages) (s : FlowState) :
    Option Str × FlowState :=
  match lookupA (hashF (keySrc msgs)) (loadCache s.cacheFile) with
  | some v => (some v, s)
  | none =>
    match generateResponse s.oracle s.genCalls with
    | (some resp, _, calls') =>
      (some resp,
        { s with
          cacheFile := some (some (loadCache s.cacheFile ++ [(hashF (keySrc msgs), resp)]))
          genCalls := calls' })
    | (none, _, calls') => (none, { s with genCalls := calls' })

/-! ### PDF extraction and prompts (lines 119-236) -/

/-- Model of `extract_pdf_text`: join the per-page texts with newlines and
strip the result. -/
def extractPdfText (pages : List Str) : Str :=
  pyStrip (sepJoin ['\n'] pages)

/-- Fixed system instruction of `system_prompt` (lines 131-161). -/
def systemPrompt : Str :=
  "You are a Senior Staff Software Engineer tasked with synchronizing an HTML resume page with a PDF resume.

CRITICAL RULES:
1. Preserve EXACT HTML structure, CSS classes, IDs, and formatting
2. Update text content ONLY - never modify HTML tags, attributes, or layout
3. Match sections semantically (Experience, Skills, Projects, Education, etc.)
4. For entities in both HTML and PDF: update HTML content to match PDF
5. For entities only in PDF: add them to appropriate sections
6. For entities only in HTML: keep them unchanged (DO NOT DELETE)
7. Maintain chronological order where applicable
8. Keep all original HTML comments and conditional code
9. Return the FULL, complete HTML file - not just changes

PRIORITY SECTIONS TO SYNC:
1. Summary/Introduction (resume-intro section)
2. Work Experiences (work-section)
3. Technical Skills (skills-section > Technical)
4. Projects (project-section)
5. Certifications (education-section for awards)
6. Languages
7. Education
8. Interests
9. Professional Skills (skills-section > Professional)

HTML STRUCTURE PRESERVATION:
- Keep all <div>, <section>, <ul>, <li> with same classes/IDs
- Maintain same number of columns and layout
- Preserve all social links, navigation, headers, footers
- Keep all script and style tags exactly as-is
- Maintain dark mode toggle and configuration panel".data

/-- User message body of `build_resume_update_messages` (lines 172-234), the
f-string with both documents embedded verbatim. -/
def userContent (htmlPath htmlContent pdfText : Str) : Str :=
  "TASK: Synchronize the HTML resume content with the PDF resume content.

PDF RESUME (SOURCE OF TRUTH):
".data ++ pdfText ++ "
CURRENT HTML FILE (".data ++ htmlPath ++ "):
".data ++ htmlContent ++ "


SPECIFIC UPDATES REQUIRED (based on manual analysis):

1. SUMMARY/RESUME-INTRO:
   - Update to match PDF summary exactly
   - Should mention \"5 years of experience\" and backend-first systems

2. WORK EXPERIENCES (Chronological order):
   a) Alogonox Technologies (August 2024 - Present)
      - Update title to \"Software Engineer\"
      - Add all bullet points from PDF

   b) Seewise.ai (September 2023 - April 2024)
      - Update title to \"Software Development Engineer\"
      - Add all bullet points from PDF

   c) Codent Software Solutions (2021 - 2023)
      - Keep but update end date to 2023
      - Update bullets from original HTML

   d) Headrun (February 2020 - July 2020)
      - Update location to \"Vijayawada, INDIA\"
      - Use bullet points from PDF

3. TECHNICAL SKILLS:
   - Reorganize to match PDF: Languages, Backend and APIs, Frontend, Databases, Cloud & DevOps, Testing & Quality, Architecture, Security & Auth
   - Include all skills from PDF: Python, JavaScript, SQL, Django, FastAPI, PostgreSQL, AWS, React.js, etc.
   - Keep HTML structure but update list items

4. PROJECTS SECTION:
   - Replace with PDF projects: AI Resume Parser, Real-time Video Call Platforms, Django/React Apps
   - Add \"Technical Expertise\" subsection as in PDF
   - Remove old detailed project lists, keep only what's in PDF

5. CERTIFICATIONS:
   - Update order to match PDF: Full Stack, Career Essentials, Programming in Python
   - Fix spelling of \"Coursera\"

6. LANGUAGES:
   - Update order: Telugu, Hindi, English, Tamil, Urdu
   - Update proficiency levels to match PDF

7. EDUCATION:
   - Add \"PRIST University\" as institution

8. INTERESTS:
   - Update to: Tech Operations, Conducting Workshops, Basketball, Fitness, Travelling

9. TAGLINE:
   - Update to: \"Software Engineer (Backend - Python, Django, FastAPI, PostgreSQL, AWS)\"

10. PORTFOLIO URL:
    - Update to: \"burhanmohammad.github.io\"

IMPORTANT: Preserve ALL HTML structure, classes, IDs, and formatting. Only update text content.
Return the COMPLETE updated HTML file.".data

/-- Model of `build_resume_update_messages` (lines 163-236): the two
role-tagged dicts, in their Python insertion order. -/
def buildResumeUpdateMessages (htmlPath htmlContent pdfText : Str) : Messages :=
  [ [("role".data, "system".data), ("content".data, systemPrompt)],
    [("role".data, "user".data), ("content".data, userContent htmlPath htmlContent pdfText)] ]

/-! ### Update flow (`update_resume_flow`, lines 241-321) -/

/-- Terminal outcome of one `update_resume_flow` run.  The `abort*` and
`cancelled` constructors are ordinary returns after a printed message;
`errorLlm` is the uncaught `RuntimeError` escaping to the caller.  The
candidate text the run was working with is carried where it exists. -/
inductive Outcome
  | abortMissingHtml
  | abortMissingPdf
  | errorLlm
  | abortBadOutput (candidate : Str)
  | cancelled (candidate : Str)
  | done (candidate : Str)
deriving DecidableEq

/-- Candidate output a run produced, if it got as far as generating one. -/
def candidateOf : Outcome → Option Str
  | .abortBadOutput u => some u
  | .cancelled u => some u
  | .done u => some u
  | _ => none

/-- Validation step (lines 268-280): accept the text if the doctype literal
occurs in the lowered first 100 characters or `"<html"` occurs in the lowered
first 200; otherwise search the whole lowered text for `"<html"` and trim
everything before a strictly positive hit; otherwise abort (`none`). -/
def validateOutput (u : Str) : Option Str :=
  if occursB doctypeNeedle (pyLower (u.take 100)) || occursB htmlNeedle (pyLower (u.take 200)) then
    some u
  else
    match firstIdx htmlNeedle (pyLower u) with
    | some k => if 0 < k then some (u.drop k) else none
    | none => none

/-- Python `input().strip().lower() == "y"` on one queued answer. -/
def isYes (a : Str) : Bool := pyLower (pyStrip a) == ['y']

/-- Apply step (lines 301-321): consume the `Apply FULL HTML update?` answer;
on an explicit `y` take the backup (when still wanted) by copying the current
HTML into the backup slot and overwrite the HTML file with the candidate;
any other answer (or exhausted input) cancels and touches nothing. -/
def applyUpdate (updated : Str) (backupNeeded : Bool) (s : FlowState) : FlowState × Outcome :=
  match s.stdin with
  | [] => (s, .cancelled updated)
  | ans :: rest =>
    if isYes ans then
      if backupNeeded then
        ({ s with stdin := rest, backupFile := s.htmlFile, htmlFile := some updated },
          .done updated)
      else
        ({ s with stdin := rest, htmlFile := some updated }, .done updated)
    else ({ s with stdin := rest }, .cancelled updated)

/-- Confirmation step (lines 297-321): when a backup already exists, first ask
whether to overwrite it (an answer other than `y` keeps the old backup while
still proceeding); then the apply prompt. -/
def confirmAndWrite (updated : Str) (s : FlowState) : FlowState × Outcome :=
  match s.backupFile with
  | some _ =>
    match s.stdin with
    | [] => applyUpdate updated (isYes []) s
    | ans :: rest => applyUpdate updated (isYes ans) { s with stdin := rest }
  | none => applyUpdate updated true s

/-- Model of `update_resume_flow` (lines 241-321): existence checks, reads,
extraction, cached generation, `strip()`, validation (with trimming),
confirmation, backup and write.  Prints, the fixed pre-generation sleep and
the soft warnings (length, expected substrings) have no modelled effect. -/
def updateResumeFlow (hashF : Str → Str) (htmlPath : Str) (s : FlowState) :
    FlowState × Outcome :=
  match s.htmlFile with
  | none => (s, .abortMissingHtml)
  | some htmlContent =>
    match s.pdfFile with
    | none => (s, .abortMissingPdf)
    | some pages =>
      match cachedGenerate hashF (buildResumeUpdateMessages htmlPath htmlContent (extractPdfText pages)) s with
      | (none, s1) => (s1, .errorLlm)
      | (some resp, s1) =>
        match validateOutput (pyStrip resp) with
        | none => (s1, .abortBadOutput (pyStrip resp))
        | some u2 => confirmAndWrite u2 s1

/-! ### String-search and case-folding lemmas -/

theorem leadsWith_mem {n h : Str} (hp : leadsWith n h = true) : ∀ c ∈ n, c ∈ h := by
  induction n generalizing h with
  | nil => intro c hc; cases hc
  | cons a as ih =>
    cases h with
    | nil => simp [leadsWith] at hp
    | cons b bs =>
      simp only [leadsWith, Bool.and_eq_true, beq_iff_eq] at hp
      intro c hc
      rcases List.mem_cons.mp hc with rfl | hc
      · rw [hp.1]; exact List.mem_cons_self b bs
      · exact List.mem_cons_of_mem b (ih hp.2 c hc)

theorem leadsWith_append {n t : Str} (hp : leadsWith n t = true) (r : Str) :
    leadsWith n (t ++ r) = true := by
  induction n generalizing t with
  | nil => simp [leadsWith]
  | cons a as ih =>
    cases t with
    | nil => simp [leadsWith] at hp
    | cons b bs =>
      simp only [leadsWith, Bool.and_eq_true, beq_iff_eq] at hp
      simp only [List.cons_append, leadsWith, Bool.and_eq_true, beq_iff_eq]
      exact ⟨hp.1, ih hp.2⟩

theorem firstIdx_leadsWith {n h : Str} {k : Nat} (hf : firstIdx n h = some k) :
    leadsWith n (h.drop k) = true := by
  induction h generalizing k with
  | nil =>
    simp only [firstIdx] at hf
    split at hf
    · rename_i hl
      cases hf
      simpa using hl
    · cases hf
  | cons a t ih =>
    simp only [firstIdx] at hf
    split at hf
    · rename_i hl
      cases hf
      simpa using hl
    · cases hk : firstIdx n t with
      | none => rw [hk] at hf; cases hf
      | some j =>
        rw [hk] at hf
        simp only [Option.map_some', Option.some.injEq] at hf
        subst hf
        simpa using ih hk

theorem occursB_cons (n z : Str) (a : Char) :
    occursB n (a :: z) = (leadsWith n (a :: z) || occursB n z) := by
  simp only [occursB, firstIdx]
  by_cases hl : leadsWith n (a :: z) = true
  · simp [hl]
  · simp [hl, Option.isSome_map]

theorem occursB_cons_of {n t : Str} (a : Char) (h : occursB n t = true) :
    occursB n (a :: t) = true := by
  rw [occursB_cons, h, Bool.or_true]

theorem occursB_of_leadsWith_drop {n z : Str} {k : Nat}
    (h : leadsWith n (z.drop k) = true) : occursB n z = true := by
  induction k generalizing z with
  | zero =>
    simp only [List.drop_zero] at h
    cases z with
    | nil => simp [occursB, firstIdx, h]
    | cons a t => simp [occursB, firstIdx, h]
  | succ m ih =>
    cases z with
    | nil =>
      simp only [List.drop_nil] at h
      simp [occursB, firstIdx, h]
    | cons a t =>
      simp only [List.drop_succ_cons] at h
      exact occursB_cons_of a (ih h)

theorem occursB_append {n t : Str} (h : occursB n t = true) (r : Str) :
    occursB n (t ++ r) = true := by
  induction t with
  | nil =>
    simp only [occursB, firstIdx] at h
    split at h
    · rename_i hl
      cases n with
      | nil =>
        cases r with
        | nil => simp [occursB, firstIdx, leadsWith]
        | cons b bs => simp [occursB, firstIdx, leadsWith]
      | cons a as => simp [leadsWith] at hl
    · cases h
  | cons a t ih =>
    rw [occursB_cons] at h
    rw [List.cons_append, occursB_cons]
    by_cases hl : leadsWith n (a :: t) = true
    · rw [show leadsWith n (a :: (t ++ r)) = true from by
        simpa using leadsWith_append hl r]
      simp
    · have ho : occursB n t = true := by
        cases hb : leadsWith n (a :: t) with
        | true => exact absurd hb hl
        | false => rw [hb, Bool.false_or] at h; exact h
      rw [ih ho, Bool.or_true]

theorem occursB_take_mono {n z : Str} {m : Nat}
    (h : occursB n (z.take m) = true) : occursB n z = true := by
  have := occursB_append h (z.drop m)
  rwa [List.take_append_drop] at this

theorem occursB_ne_nil {n hay : Str} (ho : occursB n hay = true) (hn : n ≠ []) : hay ≠ [] := by
  intro he
  subst he
  cases n with
  | nil => exact hn rfl
  | cons a as => simp [occursB, firstIdx, leadsWith] at ho

theorem charOfNat_toNat {m : Nat} (h : m.isValidChar) : (Char.ofNat m).toNat = m := by
  simp [Char.ofNat, h, Char.ofNatAux, Char.toNat, UInt32.toNat]

theorem toLower_ne_upper {d : Char} (hd : 65 ≤ d.toNat ∧ d.toNat ≤ 90) (c : Char) :
    Char.toLower c ≠ d := by
  intro he
  have hval : (Char.toLower c).toNat = d.toNat := by rw [he]
  simp only [Char.toLower] at hval
  split at hval
  · rename_i hc
    have hv : (c.toNat + 32).isValidChar := by
      left
      omega
    rw [charOfNat_toNat hv] at hval
    omega
  · rename_i hc
    have hcd : c = d := Char.ext (UInt32.toNat.inj (by simpa [Char.toNat] using hval))
    subst hcd
    exact hc ⟨hd.1, hd.2⟩

theorem toLower_eq_nonletter {d : Char} (_hd1 : ¬(65 ≤ d.toNat ∧ d.toNat ≤ 90))
    (hd2 : ¬(97 ≤ d.toNat ∧ d.toNat ≤ 122)) {c : Char}
    (he : Char.toLower c = d) : c = d := by
  have hval : (Char.toLower c).toNat = d.toNat := by rw [he]
  simp only [Char.toLower] at hval
  split at hval
  · rename_i hc
    have hv : (c.toNat + 32).isValidChar := by left; omega
    rw [charOfNat_toNat hv] at hval
    omega
  · exact Char.ext (UInt32.toNat.inj (by simpa [Char.toNat] using hval))

/-- The doctype acceptance check of line 269 is dead code: the mixed-case
literal is compared against a lower-cased string, so it can never occur. -/
theorem doctype_never_matches (u : Str) : occursB doctypeNeedle (pyLower u) = false := by
  cases ho : occursB doctypeNeedle (pyLower u) with
  | false => rfl
  | true =>
    exfalso
    obtain ⟨k, hk⟩ := Option.isSome_iff_exists.mp ho
    have hl := firstIdx_leadsWith hk
    have hD : 'D' ∈ doctypeNeedle := by decide
    have hmem : 'D' ∈ (pyLower u).drop k := leadsWith_mem hl 'D' hD
    have hmem2 : 'D' ∈ pyLower u := List.drop_subset k (pyLower u) hmem
    obtain ⟨c, _, hc⟩ := List.mem_map.mp hmem2
    exact toLower_ne_upper (d := 'D') (by decide) c hc

/-! ### `pyStrip` endpoint lemmas -/

theorem head?_dropWhile {p : Char → Bool} {l : Str} {c : Char}
    (h : (l.dropWhile p).head? = some c) : p c = false := by
  induction l with
  | nil => simp [List.dropWhile] at h
  | cons a t ih =>
    simp only [List.dropWhile] at h
    split at h
    · exact ih h
    · rename_i hp
      simp only [List.head?_cons, Option.some.injEq] at h
      subst h
      simpa using hp

theorem dropWhile_eq_drop (p : Char → Bool) (l : Str) : ∃ n, l.dropWhile p = l.drop n := by
  induction l with
  | nil => exact ⟨0, rfl⟩
  | cons a t ih =>
    by_cases h : p a
    · obtain ⟨n, hn⟩ := ih
      exact ⟨n + 1, by simp [List.dropWhile, h, hn]⟩
    · exact ⟨0, by simp [List.dropWhile, h]⟩

theorem getLast?_drop_ne {l : Str} {n : Nat} (h : l.drop n ≠ []) :
    (l.drop n).getLast? = l.getLast? := by
  conv_rhs => rw [← List.take_append_drop n l]
  rw [List.getLast?_append_of_ne_nil _ h]

theorem getLast?_dropWhile_ne {p : Char → Bool} {l : Str} (h : l.dropWhile p ≠ []) :
    (l.dropWhile p).getLast? = l.getLast? := by
  obtain ⟨n, hn⟩ := dropWhile_eq_drop p l
  rw [hn] at h ⊢
  exact getLast?_drop_ne h

theorem pyStrip_last {l : Str} {c : Char} (h : (pyStrip l).getLast? = some c) :
    pyIsSpace c = false := by
  unfold pyStrip at h
  rw [List.getLast?_reverse] at h
  exact head?_dropWhile h

theorem pyStrip_head {l : Str} {c : Char} (h : (pyStrip l).head? = some c) :
    pyIsSpace c = false := by
  unfold pyStrip at h
  rw [List.head?_reverse] at h
  have hne : (l.dropWhile pyIsSpace).reverse.dropWhile pyIsSpace ≠ [] := by
    intro he
    rw [he] at h
    simp at h
  rw [getLast?_dropWhile_ne hne, List.getLast?_reverse] at h
  exact head?_dropWhile h

/-! ### Cache and flow helper lemmas -/

theorem lookupA_append_self {k : Str} {t : Table} (h : lookupA k t = none) (v : Str) :
    lookupA k (t ++ [(k, v)]) = some v := by
  induction t with
  | nil => simp [lookupA]
  | cons p t ih =>
    obtain ⟨k', v'⟩ := p
    simp only [lookupA] at h
    simp only [List.cons_append, lookupA]
    split at h
    · cases h
    · rename_i hne
      rw [if_neg hne]
      exact ih h

theorem cachedGenerate_htmlFile (hashF : Str → Str) (msgs : Messages) (s : FlowState) :
    (cachedGenerate hashF msgs s).2.htmlFile = s.htmlFile := by
  unfold cachedGenerate
  split
  · rfl
  · split <;> rfl

theorem cachedGenerate_backupFile (hashF : Str → Str) (msgs : Messages) (s : FlowState) :
    (cachedGenerate hashF msgs s).2.backupFile = s.backupFile := by
  unfold cachedGenerate
  split
  · rfl
  · split <;> rfl

theorem cachedGenerate_stdin (hashF : Str → Str) (msgs : Messages) (s : FlowState) :
    (cachedGenerate hashF msgs s).2.stdin = s.stdin := by
  unfold cachedGenerate
  split
  · rfl
  · split <;> rfl

theorem cachedGenerate_lookup {hashF : Str → Str} {msgs : Messages} {s : FlowState}
    {r : Str} {s' : FlowState} (h : cachedGenerate hashF msgs s = (some r, s')) :
    lookupA (hashF (keySrc msgs)) (loadCache s'.cacheFile) = some r := by
  unfold cachedGenerate at h
  split at h
  · rename_i hl
    obtain ⟨h1, h2⟩ := Prod.mk.injEq .. ▸ h
    cases h1
    rw [← h2]
    exact hl
  · rename_i hl
    split at h
    · rename_i resp sleeps calls heqg
      obtain ⟨h1, h2⟩ := Prod.mk.injEq .. ▸ h
      cases h1
      rw [← h2]
      simpa [loadCache] using lookupA_append_self hl r
    · cases (Prod.mk.injEq .. ▸ h).1

theorem applyUpdate_outcome (u : Str) (b : Bool) (s : FlowState) :
    (applyUpdate u b s).2 = .done u ∨ (applyUpdate u b s).2 = .cancelled u := by
  unfold applyUpdate
  split
  · exact .inr rfl
  · split
    · split
      · exact .inl rfl
      · exact .inl rfl
    · exact .inr rfl

theorem applyUpdate_cacheFile (u : Str) (b : Bool) (s : FlowState) :
    (applyUpdate u b s).1.cacheFile = s.cacheFile := by
  unfold applyUpdate
  split
  · rfl
  · split
    · split <;> rfl
    · rfl

theorem applyUpdate_genCalls (u : Str) (b : Bool) (s : FlowState) :
    (applyUpdate u b s).1.genCalls = s.genCalls := by
  unfold applyUpdate
  split
  · rfl
  · split
    · split <;> rfl
    · rfl

theorem confirmAndWrite_outcome (u : Str) (s : FlowState) :
    (confirmAndWrite u s).2 = .done u ∨ (confirmAndWrite u s).2 = .cancelled u := by
  unfold confirmAndWrite
  split
  · split
    · exact applyUpdate_outcome ..
    · exact applyUpdate_outcome ..
  · exact applyUpdate_outcome ..

theorem confirmAndWrite_cacheFile (u : Str) (s : FlowState) :
    (confirmAndWrite u s).1.cacheFile = s.cacheFile := by
  unfold confirmAndWrite
  split
  · split
    · exact applyUpdate_cacheFile ..
    · exact applyUpdate_cacheFile ..
  · exact applyUpdate_cacheFile ..

theorem confirmAndWrite_genCalls (u : Str) (s : FlowState) :
    (confirmAndWrite u s).1.genCalls = s.genCalls := by
  unfold confirmAndWrite
  split
  · split
    · exact applyUpdate_genCalls ..
    · exact applyUpdate_genCalls ..
  · exact applyUpdate_genCalls ..

theorem applyUpdate_done_htmlFile {u u' : Str} {b : Bool} {s s' : FlowState}
    (h : applyUpdate u b s = (s', .done u')) : u' = u ∧ s'.htmlFile = some u := by
  unfold applyUpdate at h
  split at h
  · simp at h
  · split at h
    · split at h
      · obtain ⟨h1, h2⟩ := Prod.mk.injEq .. ▸ h
        cases h2
        exact ⟨rfl, by rw [← h1]⟩
      · obtain ⟨h1, h2⟩ := Prod.mk.injEq .. ▸ h
        cases h2
        exact ⟨rfl, by rw [← h1]⟩
    · simp at h

theorem confirmAndWrite_done_htmlFile {u u' : Str} {s s' : FlowState}
    (h : confirmAndWrite u s = (s', .done u')) : u' = u ∧ s'.htmlFile = some u := by
  unfold confirmAndWrite at h
  split at h
  · split at h
    · exact applyUpdate_done_htmlFile h
    · exact applyUpdate_done_htmlFile h
  · exact applyUpdate_done_htmlFile h

/-! ### Claim C4 — missing PDF aborts before extraction and any remote call -/

/-- C4: when the PDF path does not exist the orchestrator aborts during the
existence checks (whichever fires first), before HTML extraction and before
any remote completion call: the state — in particular the HTML file and the
remote call count — is returned unchanged, and the outcome is an ordinary
abort return, not the propagated-exception outcome. -/
theorem c4_missing_pdf_aborts (hashF : Str → Str) (htmlPath : Str) (s : FlowState)
    (hp : s.pdfFile = none) :
    (updateResumeFlow hashF htmlPath s).1 = s ∧
    ((updateResumeFlow hashF htmlPath s).2 = .abortMissingPdf ∨
      (updateResumeFlow hashF htmlPath s).2 = .abortMissingHtml) ∧
    (updateResumeFlow hashF htmlPath s).2 ≠ .errorLlm ∧
    (updateResumeFlow hashF htmlPath s).1.genCalls = s.genCalls := by
  unfold updateResumeFlow
  cases hh : s.htmlFile with
  | none => exact ⟨rfl, .inr rfl, by simp, rfl⟩
  | some hc =>
    rw [hp]
    exact ⟨rfl, .inl rfl, by simp, rfl⟩

theorem c4_missing_pdf_aborts_witness :
    (updateResumeFlow (fun _ => []) "resume.html".data
      { htmlFile := some ("<html>old</html>".data), backupFile := none, pdfFile := none,
        cacheFile := none, oracle := fun _ => .otherErr, genCalls := 0, stdin := [] }).1 =
      { htmlFile := some ("<html>old</html>".data), backupFile := none, pdfFile := none,
        cacheFile := none, oracle := fun _ => .otherErr, genCalls := 0, stdin := [] } ∧
    ((updateResumeFlow (fun _ => []) "resume.html".data
      { htmlFile := some ("<html>old</html>".data), backupFile := none, pdfFile := none,
        cacheFile := none, oracle := fun _ => .otherErr, genCalls := 0, stdin := [] }).2 =
        .abortMissingPdf ∨
      (updateResumeFlow (fun _ => []) "resume.html".data
      { htmlFile := some ("<html>old</html>".data), backupFile := none, pdfFile := none,
        cacheFile := none, oracle := fun _ => .otherErr, genCalls := 0, stdin := [] }).2 =
        .abortMissingHtml) ∧
    (updateResumeFlow (fun _ => []) "resume.html".data
      { htmlFile := some ("<html>old</html>".data), backupFile := none, pdfFile := none,
        cacheFile := none, oracle := fun _ => .otherErr, genCalls := 0, stdin := [] }).2 ≠
      .errorLlm ∧
    (updateResumeFlow (fun _ => []) "resume.html".data
      { htmlFile := some ("<html>old</html>".data), backupFile := none, pdfFile := none,
        cacheFile := none, oracle := fun _ => .otherErr, genCalls := 0, stdin := [] }).1.genCalls =
      0 :=
  c4_missing_pdf_aborts (fun _ => []) "resume.html".data
    { htmlFile := some ("<html>old</html>".data), backupFile := none, pdfFile := none,
      cacheFile := none, oracle := fun _ => .otherErr, genCalls := 0, stdin := [] } rfl

/-! ### Claim C5 — two transient errors then success -/

/-- C5: when the remote call raises a transient `APIError` on attempts one and
two and succeeds on attempt three, `generate_response` returns the third
attempt's text, exactly two backoff delays were slept, and they increase
linearly (`3 * attempt`), the second strictly longer than the first. -/
theorem c5_two_transient_then_ok (o : Nat → AttemptRes) (c0 : Nat) (r : Str)
    (h0 : o c0 = .apiErr) (h1 : o (c0 + 1) = .apiErr) (h2 : o (c0 + 2) = .ok r) :
    generateResponse o c0 = (some r, [3 * 1, 3 * 2], c0 + 3) ∧
    ([3 * 1, 3 * 2] : List Nat).length = 2 ∧ 3 * 1 < 3 * 2 := by
  have h2' : o (c0 + 1 + 1) = .ok r := by
    rw [show c0 + 1 + 1 = c0 + 2 by omega]
    exact h2
  refine ⟨?_, rfl, by omega⟩
  simp only [generateResponse, grLoop, h0, h1, h2']

theorem c5_two_transient_then_ok_witness :
    generateResponse
      (fun n => if n = 0 then .apiErr else if n = 1 then .apiErr else .ok ("out".data)) 0 =
      (some ("out".data), [3 * 1, 3 * 2], 0 + 3) ∧
    ([3 * 1, 3 * 2] : List Nat).length = 2 ∧ 3 * 1 < 3 * 2 :=
  c5_two_transient_then_ok
    (fun n => if n = 0 then .apiErr else if n = 1 then .apiErr else .ok ("out".data))
    0 "out".data rfl rfl rfl

/-! ### Claim C9 — unparseable cache file degrades to an empty table -/

/-- C9: an unparseable cache file loads as the empty table, and the run then
proceeds exactly as with no cache: the next request misses, invokes the
remote endpoint once, and persists a fresh one-entry table. -/
theorem c9_corrupt_cache_degrades (hashF : Str → Str) (msgs : Messages) (s : FlowState)
    (r : Str) (hcc : s.cacheFile = some none) (ho : s.oracle s.genCalls = .ok r) :
    loadCache s.cacheFile = [] ∧
    cachedGenerate hashF msgs s =
      (some r,
        { s with cacheFile := some (some [(hashF (keySrc msgs), r)]),
                 genCalls := s.genCalls + 1 }) := by
  constructor
  · rw [hcc]
    rfl
  · unfold cachedGenerate
    rw [hcc]
    simp [loadCache, lookupA, generateResponse, grLoop, ho]

theorem c9_corrupt_cache_degrades_witness :
    loadCache (FlowState.cacheFile
      { htmlFile := none, backupFile := none, pdfFile := none,
        cacheFile := some none, oracle := fun _ => .ok ("resp".data), genCalls := 0,
        stdin := [] }) = [] ∧
    cachedGenerate (fun _ => "k".data) [[("role".data, "user".data)]]
      { htmlFile := none, backupFile := none, pdfFile := none,
        cacheFile := some none, oracle := fun _ => .ok ("resp".data), genCalls := 0,
        stdin := [] } =
      (some ("resp".data),
        { htmlFile := none, backupFile := none, pdfFile := none,
          cacheFile := some (some [("k".data, "resp".data)]),
          oracle := fun _ => .ok ("resp".data), genCalls := 0 + 1, stdin := [] }) := by
  have h := c9_corrupt_cache_degrades (fun _ => "k".data) [[("role".data, "user".data)]]
    { htmlFile := none, backupFile := none, pdfFile := none,
      cacheFile := some none, oracle := fun _ => .ok ("resp".data), genCalls := 0,
      stdin := [] } "resp".data rfl rfl
  exact h

/-! ### Claim C3 — unrecognized output aborts before the write step -/

/-- C3: when the candidate text (the stripped completion result) contains no
doctype in its first segment and no `<html` root marker anywhere, the run
aborts at validation, before the backup/write step: the returned state is the
post-generation state, whose HTML file and backup slot are unchanged. -/
theorem c3_unrecognized_output_aborts (hashF : Str → Str) (htmlPath : Str)
    (s : FlowState) (hc : Str) (pg : List Str) (r : Str) (s1 : FlowState)
    (hh : s.htmlFile = some hc) (hp : s.pdfFile = some pg)
    (hgen : cachedGenerate hashF
      (buildResumeUpdateMessages htmlPath hc (extractPdfText pg)) s = (some r, s1))
    (_hdoc : occursB doctypeLowerNeedle (pyLower ((pyStrip r).take 100)) = false)
    (hroot : occursB htmlNeedle (pyLower (pyStrip r)) = false) :
    updateResumeFlow hashF htmlPath s = (s1, .abortBadOutput (pyStrip r)) ∧
    s1.htmlFile = s.htmlFile ∧ s1.backupFile = s.backupFile := by
  have cond1 : occursB doctypeNeedle (pyLower ((pyStrip r).take 100)) = false :=
    doctype_never_matches _
  have cond2 : occursB htmlNeedle (pyLower ((pyStrip r).take 200)) = false := by
    cases hb : occursB htmlNeedle (pyLower ((pyStrip r).take 200)) with
    | false => rfl
    | true =>
      exfalso
      rw [show pyLower ((pyStrip r).take 200) = (pyLower (pyStrip r)).take 200 from by
        unfold pyLower
        exact List.map_take ..] at hb
      rw [occursB_take_mono hb] at hroot
      cases hroot
  have hfi : firstIdx htmlNeedle (pyLower (pyStrip r)) = none := by
    cases hf : firstIdx htmlNeedle (pyLower (pyStrip r)) with
    | none => rfl
    | some k =>
      unfold occursB at hroot
      rw [hf] at hroot
      cases hroot
  have hval : validateOutput (pyStrip r) = none := by
    unfold validateOutput
    rw [cond1, cond2, hfi]
    simp
  refine ⟨?_, ?_, ?_⟩
  · simp only [updateResumeFlow, hh, hp, hgen, hval]
  · have h1 := cachedGenerate_htmlFile hashF
      (buildResumeUpdateMessages htmlPath hc (extractPdfText pg)) s
    rw [hgen] at h1
    exact h1
  · have h1 := cachedGenerate_backupFile hashF
      (buildResumeUpdateMessages htmlPath hc (extractPdfText pg)) s
    rw [hgen] at h1
    exact h1

theorem c3_unrecognized_output_aborts_witness :
    updateResumeFlow (fun _ => []) "p".data
      { htmlFile := some ("<html>old</html>".data), backupFile := none,
        pdfFile := some [], cacheFile := none,
        oracle := fun _ => .ok ("no markup here".data), genCalls := 0, stdin := [] } =
      ({ htmlFile := some ("<html>old</html>".data), backupFile := none,
         pdfFile := some [], cacheFile := some (some [([], "no markup here".data)]),
         oracle := fun _ => .ok ("no markup here".data), genCalls := 1, stdin := [] },
        .abortBadOutput (pyStrip ("no markup here".data))) ∧
    FlowState.htmlFile
      { htmlFile := some ("<html>old</html>".data), backupFile := none,
        pdfFile := some [], cacheFile := some (some [([], "no markup here".data)]),
        oracle := fun _ => .ok ("no markup here".data), genCalls := 1, stdin := [] } =
      FlowState.htmlFile
      { htmlFile := some ("<html>old</html>".data), backupFile := none,
        pdfFile := some [], cacheFile := none,
        oracle := fun _ => .ok ("no markup here".data), genCalls := 0, stdin := [] } ∧
    FlowState.backupFile
      { htmlFile := some ("<html>old</html>".data), backupFile := none,
        pdfFile := some [], cacheFile := some (some [([], "no markup here".data)]),
        oracle := fun _ => .ok ("no markup here".data), genCalls := 1, stdin := [] } =
      FlowState.backupFile
      { htmlFile := some ("<html>old</html>".data), backupFile := none,
        pdfFile := some [], cacheFile := none,
        oracle := fun _ => .ok ("no markup here".data), genCalls := 0, stdin := [] } :=
  c3_unrecognized_output_aborts (fun _ => []) "p".data
    { htmlFile := some ("<html>old</html>".data), backupFile := none,
      pdfFile := some [], cacheFile := none,
      oracle := fun _ => .ok ("no markup here".data), genCalls := 0, stdin := [] }
    "<html>old</html>".data [] "no markup here".data
    { htmlFile := some ("<html>old</html>".data), backupFile := none,
      pdfFile := some [], cacheFile := some (some [([], "no markup here".data)]),
      oracle := fun _ => .ok ("no markup here".data), genCalls := 1, stdin := [] }
    rfl rfl rfl (by decide) (by decide)

/-! ### Claim C7 — late root marker is trimmed and the tail is stored -/

/-- C7: when the candidate fails the initial document-start check and its
root marker first occurs at offset `k > 0`, the confirmed run stores exactly
the candidate with its first `k` characters dropped. -/
theorem c7_trim_stores_suffix (hashF : Str → Str) (htmlPath : Str)
    (s : FlowState) (hc : Str) (pg : List Str) (r : Str) (s1 : FlowState)
    (k : Nat) (ans : Str) (rest : List Str)
    (hh : s.htmlFile = some hc) (hp : s.pdfFile = some pg)
    (hgen : cachedGenerate hashF
      (buildResumeUpdateMessages htmlPath hc (extractPdfText pg)) s = (some r, s1))
    (hfail : (occursB doctypeNeedle (pyLower ((pyStrip r).take 100)) ||
      occursB htmlNeedle (pyLower ((pyStrip r).take 200))) = false)
    (hk : firstIdx htmlNeedle (pyLower (pyStrip r)) = some k) (hk0 : 0 < k)
    (hb : s.backupFile = none) (hst : s.stdin = ans :: rest) (hy : isYes ans = true) :
    (updateResumeFlow hashF htmlPath s).2 = .done ((pyStrip r).drop k) ∧
    (updateResumeFlow hashF htmlPath s).1.htmlFile = some ((pyStrip r).drop k) := by
  have hval : validateOutput (pyStrip r) = some ((pyStrip r).drop k) := by
    unfold validateOutput
    rw [hfail]
    simp only [Bool.false_eq_true, if_false]
    rw [hk]
    simp [hk0]
  have hmsgs := cachedGenerate_backupFile hashF
    (buildResumeUpdateMessages htmlPath hc (extractPdfText pg)) s
  rw [hgen] at hmsgs
  have hb1 : s1.backupFile = none := by rw [hmsgs, hb]
  have hstp := cachedGenerate_stdin hashF
    (buildResumeUpdateMessages htmlPath hc (extractPdfText pg)) s
  rw [hgen] at hstp
  have hst1 : s1.stdin = ans :: rest := by rw [hstp, hst]
  have hflow : updateResumeFlow hashF htmlPath s =
      confirmAndWrite ((pyStrip r).drop k) s1 := by
    simp only [updateResumeFlow, hh, hp, hgen, hval]
  constructor
  · rw [hflow]
    simp only [confirmAndWrite, hb1, applyUpdate, hst1, hy, if_true]
  · rw [hflow]
    simp only [confirmAndWrite, hb1, applyUpdate, hst1, hy, if_true]

set_option maxRecDepth 100000 in
theorem c7_trim_stores_suffix_witness :
    (updateResumeFlow (fun _ => []) "p".data
      { htmlFile := some ("<html>old</html>".data), backupFile := none,
        pdfFile := some [], cacheFile := none,
        oracle := fun _ => .ok (List.replicate 200 'x' ++ "<html>ok</html>".data),
        genCalls := 0, stdin := ["y".data] }).2 =
      .done ((pyStrip (List.replicate 200 'x' ++ "<html>ok</html>".data)).drop 200) ∧
    (updateResumeFlow (fun _ => []) "p".data
      { htmlFile := some ("<html>old</html>".data), backupFile := none,
        pdfFile := some [], cacheFile := none,
        oracle := fun _ => .ok (List.replicate 200 'x' ++ "<html>ok</html>".data),
        genCalls := 0, stdin := ["y".data] }).1.htmlFile =
      some ((pyStrip (List.replicate 200 'x' ++ "<html>ok</html>".data)).drop 200) :=
  c7_trim_stores_suffix (fun _ => []) "p".data
    { htmlFile := some ("<html>old</html>".data), backupFile := none,
      pdfFile := some [], cacheFile := none,
      oracle := fun _ => .ok (List.replicate 200 'x' ++ "<html>ok</html>".data),
      genCalls := 0, stdin := ["y".data] }
    "<html>old</html>".data [] (List.replicate 200 'x' ++ "<html>ok</html>".data)
    { htmlFile := some ("<html>old</html>".data), backupFile := none,
      pdfFile := some [],
      cacheFile := some (some [([], List.replicate 200 'x' ++ "<html>ok</html>".data)]),
      oracle := fun _ => .ok (List.replicate 200 'x' ++ "<html>ok</html>".data),
      genCalls := 1, stdin := ["y".data] }
    200 "y".data []
    rfl rfl rfl (by decide) (by decide) (by decide) rfl rfl (by decide)


/-! ### Claim C8 — operator decline leaves both files untouched -/

/-- C8: any answer other than an explicit `y` at the apply prompt — the empty
string included — cancels the run: the outcome is `Cancelled` and both the
target HTML file and the backup slot are exactly as before the run, with no
backup created and no write performed. -/
theorem c8_decline_touches_nothing (hashF : Str → Str) (htmlPath : Str)
    (s : FlowState) (hc : Str) (pg : List Str) (r : Str) (s1 : FlowState)
    (hh : s.htmlFile = some hc) (hp : s.pdfFile = some pg)
    (hgen : cachedGenerate hashF
      (buildResumeUpdateMessages htmlPath hc (extractPdfText pg)) s = (some r, s1))
    (hpass : occursB htmlNeedle (pyLower ((pyStrip r).take 200)) = true)
    (hdecl : (s.backupFile = none ∧ ∃ a rest, s.stdin = a :: rest ∧ isYes a = false) ∨
      (∃ b, s.backupFile = some b ∧
        ∃ a0 a rest, s.stdin = a0 :: a :: rest ∧ isYes a = false)) :
    (∃ c, (updateResumeFlow hashF htmlPath s).2 = .cancelled c) ∧
    (updateResumeFlow hashF htmlPath s).1.htmlFile = s.htmlFile ∧
    (updateResumeFlow hashF htmlPath s).1.backupFile = s.backupFile := by
  have hval : validateOutput (pyStrip r) = some (pyStrip r) := by
    unfold validateOutput
    rw [hpass]
    simp
  have hflow : updateResumeFlow hashF htmlPath s = confirmAndWrite (pyStrip r) s1 := by
    simp only [updateResumeFlow, hh, hp, hgen, hval]
  have hbp := cachedGenerate_backupFile hashF
    (buildResumeUpdateMessages htmlPath hc (extractPdfText pg)) s
  rw [hgen] at hbp
  have hhp := cachedGenerate_htmlFile hashF
    (buildResumeUpdateMessages htmlPath hc (extractPdfText pg)) s
  rw [hgen] at hhp
  have hsp := cachedGenerate_stdin hashF
    (buildResumeUpdateMessages htmlPath hc (extractPdfText pg)) s
  rw [hgen] at hsp
  rcases hdecl with ⟨hbn, a, rest, hst, hno⟩ | ⟨b, hbs, a0, a, rest, hst, hno⟩
  · have hb1 : s1.backupFile = none := by rw [hbp, hbn]
    have hst1 : s1.stdin = a :: rest := by rw [hsp, hst]
    have hcw : confirmAndWrite (pyStrip r) s1 =
        (applyUpdate (pyStrip r) true s1) := by
      simp only [confirmAndWrite, hb1]
    have hap : applyUpdate (pyStrip r) true s1 =
        ({ s1 with stdin := rest }, .cancelled (pyStrip r)) := by
      simp only [applyUpdate, hst1, hno]
      simp
    rw [hflow, hcw, hap]
    exact ⟨⟨pyStrip r, rfl⟩, by simpa using hhp, by simpa using hbp⟩
  · have hb1 : s1.backupFile = some b := by rw [hbp, hbs]
    have hst1 : s1.stdin = a0 :: a :: rest := by rw [hsp, hst]
    have hcw : confirmAndWrite (pyStrip r) s1 =
        applyUpdate (pyStrip r) (isYes a0) { s1 with stdin := a :: rest } := by
      simp only [confirmAndWrite, hb1, hst1]
    have hap : applyUpdate (pyStrip r) (isYes a0) { s1 with stdin := a :: rest } =
        ({ s1 with stdin := rest }, .cancelled (pyStrip r)) := by
      simp only [applyUpdate, hno]
      simp
    rw [hflow, hcw, hap]
    refine ⟨⟨pyStrip r, rfl⟩, by simpa using hhp, ?_⟩
    simpa using hbp

theorem c8_decline_touches_nothing_witness :
    (∃ c, (updateResumeFlow (fun _ => []) "p".data
      { htmlFile := some ("<html>old</html>".data), backupFile := none,
        pdfFile := some [], cacheFile := none,
        oracle := fun _ => .ok ("<html>new</html>".data), genCalls := 0,
        stdin := [[]] }).2 = .cancelled c) ∧
    (updateResumeFlow (fun _ => []) "p".data
      { htmlFile := some ("<html>old</html>".data), backupFile := none,
        pdfFile := some [], cacheFile := none,
        oracle := fun _ => .ok ("<html>new</html>".data), genCalls := 0,
        stdin := [[]] }).1.htmlFile = some ("<html>old</html>".data) ∧
    (updateResumeFlow (fun _ => []) "p".data
      { htmlFile := some ("<html>old</html>".data), backupFile := none,
        pdfFile := some [], cacheFile := none,
        oracle := fun _ => .ok ("<html>new</html>".data), genCalls := 0,
        stdin := [[]] }).1.backupFile = none :=
  c8_decline_touches_nothing (fun _ => []) "p".data
    { htmlFile := some ("<html>old</html>".data), backupFile := none,
      pdfFile := some [], cacheFile := none,
      oracle := fun _ => .ok ("<html>new</html>".data), genCalls := 0,
      stdin := [[]] }
    "<html>old</html>".data [] "<html>new</html>".data
    { htmlFile := some ("<html>old</html>".data), backupFile := none,
      pdfFile := some [],
      cacheFile := some (some [([], "<html>new</html>".data)]),
      oracle := fun _ => .ok ("<html>new</html>".data), genCalls := 1,
      stdin := [[]] }
    rfl rfl rfl (by decide) (.inl ⟨rfl, [], [], rfl, by decide⟩)


/-! ### Claim C10 — written content is stripped of surrounding whitespace -/

theorem validateOutput_strip_ends {r v : Str} (h : validateOutput (pyStrip r) = some v) :
    v ≠ [] ∧ (∀ c, v.head? = some c → pyIsSpace c = false) ∧
    (∀ c, v.getLast? = some c → pyIsSpace c = false) := by
  unfold validateOutput at h
  split at h
  · rename_i hcond
    cases h
    rw [doctype_never_matches, Bool.false_or] at hcond
    have hne : pyStrip r ≠ [] := by
      intro he
      rw [he] at hcond
      exact absurd hcond (by decide)
    exact ⟨hne, fun c hc => pyStrip_head hc, fun c hc => pyStrip_last hc⟩
  · split at h
    · rename_i k hfi
      split at h
      · rename_i hk0
        cases h
        have hlw := firstIdx_leadsWith hfi
        rw [show (pyLower (pyStrip r)).drop k = pyLower ((pyStrip r).drop k) from by
          unfold pyLower
          exact (List.map_drop ..).symm] at hlw
        cases hd : (pyStrip r).drop k with
        | nil =>
          rw [hd] at hlw
          exact absurd hlw (by decide)
        | cons b bs =>
          rw [hd] at hlw
          have hb : Char.toLower b = '<' := by
            simp only [pyLower, List.map_cons, htmlNeedle, leadsWith, Bool.and_eq_true,
              beq_iff_eq] at hlw
            exact hlw.1.symm
          have hble : b = '<' := toLower_eq_nonletter (by decide) (by decide) hb
          have hvne : (pyStrip r).drop k ≠ [] := by rw [hd]; exact List.cons_ne_nil b bs
          refine ⟨List.cons_ne_nil b bs, ?_, ?_⟩
          · intro c hc
            simp only [List.head?_cons, Option.some.injEq] at hc
            subst hc
            rw [hble]
            decide
          · intro c hc
            rw [← hd, getLast?_drop_ne hvne] at hc
            exact pyStrip_last hc
      · cases h
    · cases h

/-- C10: every completion result is stripped before validation, preview and
write, so a run that ends in `Done` wrote a candidate that is non-empty and
neither begins nor ends with whitespace, and that candidate is exactly the
validation result of some stripped response. -/
theorem c10_written_is_stripped (hashF : Str → Str) (htmlPath : Str)
    (s s' : FlowState) (u : Str)
    (hrun : updateResumeFlow hashF htmlPath s = (s', .done u)) :
    s'.htmlFile = some u ∧ u ≠ [] ∧
    (∀ c, u.head? = some c → pyIsSpace c = false) ∧
    (∀ c, u.getLast? = some c → pyIsSpace c = false) ∧
    ∃ r, validateOutput (pyStrip r) = some u := by
  unfold updateResumeFlow at hrun
  split at hrun
  · exact Outcome.noConfusion (congrArg Prod.snd hrun)
  · split at hrun
    · exact Outcome.noConfusion (congrArg Prod.snd hrun)
    · split at hrun
      · exact Outcome.noConfusion (congrArg Prod.snd hrun)
      · rename_i resp s1 hcg
        split at hrun
        · exact Outcome.noConfusion (congrArg Prod.snd hrun)
        · rename_i u2 hvo
          obtain ⟨he, hhf⟩ := confirmAndWrite_done_htmlFile hrun
          subst he
          obtain ⟨h1, h2, h3⟩ := validateOutput_strip_ends hvo
          exact ⟨hhf, h1, h2, h3, resp, hvo⟩

theorem c10_written_is_stripped_witness :
    FlowState.htmlFile
      { htmlFile := some ("<html>hi</html>".data),
        backupFile := some ("<html>old</html>".data),
        pdfFile := some [],
        cacheFile := some (some [([], "  <html>hi</html>  ".data)]),
        oracle := fun _ => .ok ("  <html>hi</html>  ".data), genCalls := 1,
        stdin := [] } = some ("<html>hi</html>".data) ∧
    "<html>hi</html>".data ≠ [] ∧
    (∀ c, ("<html>hi</html>".data : Str).head? = some c → pyIsSpace c = false) ∧
    (∀ c, ("<html>hi</html>".data : Str).getLast? = some c → pyIsSpace c = false) ∧
    ∃ r, validateOutput (pyStrip r) = some ("<html>hi</html>".data) :=
  c10_written_is_stripped (fun _ => []) "p".data
    { htmlFile := some ("<html>old</html>".data), backupFile := none,
      pdfFile := some [], cacheFile := none,
      oracle := fun _ => .ok ("  <html>hi</html>  ".data), genCalls := 0,
      stdin := ["y".data] }
    { htmlFile := some ("<html>hi</html>".data),
      backupFile := some ("<html>old</html>".data),
      pdfFile := some [],
      cacheFile := some (some [([], "  <html>hi</html>  ".data)]),
      oracle := fun _ => .ok ("  <html>hi</html>  ".data), genCalls := 1,
      stdin := [] }
    "<html>hi</html>".data rfl

/-! ### Claim C6 — the doctype acceptance branch never fires (code bug) -/

/-- C6 (refuted, code bug): the claim says a candidate whose first segment
contains a doctype declaration, in any letter case, is recognized and
proceeds untrimmed.  In the code the literal `"<!DOCTYPE html>"` is searched
inside the lower-cased prefix, which can never contain upper-case letters, so
the doctype branch never fires for any candidate whatsoever; a doctype-led
candidate with no `<html` marker is aborted instead of accepted — even when
the doctype is spelled exactly as the program's own literal. -/
theorem c6_doctype_branch_dead :
    (∀ u : Str, occursB doctypeNeedle (pyLower u) = false) ∧
    validateOutput ("<!DOCTYPE html><body>hello</body>".data) = none ∧
    occursB doctypeLowerNeedle
      (pyLower (("<!DOCTYPE html><body>hello</body>".data : Str).take 100)) = true :=
  ⟨doctype_never_matches, by decide, by decide⟩


/-! ### Claim C1 — an identical second run is served from the persisted cache -/

theorem cachedGenerate_hit {hashF : Str → Str} {msgs : Messages} {s : FlowState} {r : Str}
    (h : lookupA (hashF (keySrc msgs)) (loadCache s.cacheFile) = some r) :
    cachedGenerate hashF msgs s = (some r, s) := by
  unfold cachedGenerate
  rw [h]

/-- C1: after a first orchestrator run over given HTML content, HTML path and
PDF text that produced a candidate, any second run over byte-identical inputs
and the persisted cache table is answered from that table: it issues no
remote completion call (the call counter is unchanged, whatever the oracle
would do), does not rewrite the cache, and produces the byte-identical
candidate. -/
theorem c1_second_run_hits_cache (hashF : Str → Str) (htmlPath : Str)
    (s s2 : FlowState) (hc : Str) (pg : List Str) (s1 : FlowState) (o1 : Outcome) (c : Str)
    (hh : s.htmlFile = some hc) (hp : s.pdfFile = some pg)
    (hrun1 : updateResumeFlow hashF htmlPath s = (s1, o1))
    (hcand : candidateOf o1 = some c)
    (hh2 : s2.htmlFile = some hc) (hp2 : s2.pdfFile = some pg)
    (hcache : s2.cacheFile = s1.cacheFile) :
    candidateOf (updateResumeFlow hashF htmlPath s2).2 = some c ∧
    (updateResumeFlow hashF htmlPath s2).1.genCalls = s2.genCalls ∧
    (updateResumeFlow hashF htmlPath s2).1.cacheFile = s2.cacheFile := by
  unfold updateResumeFlow at hrun1
  split at hrun1
  · rename_i hnone
    rw [hh] at hnone
    cases hnone
  · rename_i hcx hsome
    rw [hh] at hsome
    obtain rfl : hc = hcx := by injection hsome
    split at hrun1
    · rename_i hpnone
      rw [hp] at hpnone
      cases hpnone
    · rename_i pgx hpsome
      rw [hp] at hpsome
      obtain rfl : pg = pgx := by injection hpsome
      split at hrun1
      · -- generation failed: o1 = errorLlm, no candidate
        obtain ⟨h1, h2⟩ := Prod.mk.injEq .. ▸ hrun1
        rw [← h2] at hcand
        cases hcand
      · rename_i resp sA hcg
        have hlkA := cachedGenerate_lookup hcg
        split at hrun1
        · -- validation aborted: candidate is the stripped response
          rename_i hvno
          obtain ⟨h1, h2⟩ := Prod.mk.injEq .. ▸ hrun1
          subst h2
          simp only [candidateOf, Option.some.injEq] at hcand
          have hlk2 : lookupA (hashF (keySrc
              (buildResumeUpdateMessages htmlPath hc (extractPdfText pg))))
              (loadCache s2.cacheFile) = some resp := by
            rw [hcache, ← h1]
            exact hlkA
          have hcg2 := cachedGenerate_hit hlk2
          have hflow2 : updateResumeFlow hashF htmlPath s2 =
              (s2, .abortBadOutput (pyStrip resp)) := by
            simp only [updateResumeFlow, hh2, hp2, hcg2, hvno]
          rw [hflow2, ← hcand]
          exact ⟨rfl, rfl, rfl⟩
        · -- validation accepted u2: candidate is u2 in both runs
          rename_i u2 hvo
          have hcf := confirmAndWrite_cacheFile u2 sA
          rw [hrun1] at hcf
          simp only [] at hcf
          have ho1 : o1 = .done u2 ∨ o1 = .cancelled u2 := by
            have hx := confirmAndWrite_outcome u2 sA
            rw [hrun1] at hx
            simpa using hx
          have hceq : c = u2 := by
            rcases ho1 with rfl | rfl <;>
              · simp only [candidateOf, Option.some.injEq] at hcand
                exact hcand.symm
          have hlk2 : lookupA (hashF (keySrc
              (buildResumeUpdateMessages htmlPath hc (extractPdfText pg))))
              (loadCache s2.cacheFile) = some resp := by
            rw [hcache, hcf]
            exact hlkA
          have hcg2 := cachedGenerate_hit hlk2
          have hflow2 : updateResumeFlow hashF htmlPath s2 =
              confirmAndWrite u2 s2 := by
            simp only [updateResumeFlow, hh2, hp2, hcg2, hvo]
          refine ⟨?_, ?_, ?_⟩
          · rw [hflow2, hceq]
            rcases confirmAndWrite_outcome u2 s2 with hoc | hoc <;> rw [hoc] <;> rfl
          · rw [hflow2]
            exact confirmAndWrite_genCalls ..
          · rw [hflow2]
            exact confirmAndWrite_cacheFile ..

theorem c1_second_run_hits_cache_witness :
    candidateOf (updateResumeFlow (fun _ => []) "p".data
      { htmlFile := some ("<html>old</html>".data), backupFile := none,
        pdfFile := some [],
        cacheFile := some (some [([], "<html>new</html>".data)]),
        oracle := fun _ => .ok ("<html>new</html>".data), genCalls := 1,
        stdin := [] }).2 = some ("<html>new</html>".data) ∧
    (updateResumeFlow (fun _ => []) "p".data
      { htmlFile := some ("<html>old</html>".data), backupFile := none,
        pdfFile := some [],
        cacheFile := some (some [([], "<html>new</html>".data)]),
        oracle := fun _ => .ok ("<html>new</html>".data), genCalls := 1,
        stdin := [] }).1.genCalls = 1 ∧
    (updateResumeFlow (fun _ => []) "p".data
      { htmlFile := some ("<html>old</html>".data), backupFile := none,
        pdfFile := some [],
        cacheFile := some (some [([], "<html>new</html>".data)]),
        oracle := fun _ => .ok ("<html>new</html>".data), genCalls := 1,
        stdin := [] }).1.cacheFile =
      some (some [([], "<html>new</html>".data)]) :=
  c1_second_run_hits_cache (fun _ => []) "p".data
    { htmlFile := some ("<html>old</html>".data), backupFile := none,
      pdfFile := some [], cacheFile := none,
      oracle := fun _ => .ok ("<html>new</html>".data), genCalls := 0,
      stdin := [] }
    { htmlFile := some ("<html>old</html>".data), backupFile := none,
      pdfFile := some [],
      cacheFile := some (some [([], "<html>new</html>".data)]),
      oracle := fun _ => .ok ("<html>new</html>".data), genCalls := 1,
      stdin := [] }
    "<html>old</html>".data []
    { htmlFile := some ("<html>old</html>".data), backupFile := none,
      pdfFile := some [],
      cacheFile := some (some [([], "<html>new</html>".data)]),
      oracle := fun _ => .ok ("<html>new</html>".data), genCalls := 1,
      stdin := [] }
    (.cancelled "<html>new</html>".data) "<html>new</html>".data
    rfl rfl rfl rfl rfl rfl rfl


/-! ### Claim C2 — canonical fingerprint: key-order invariance -/

theorem char_eq_of_toNat {a b : Char} (h : a.toNat = b.toNat) : a = b :=
  Char.ext (UInt32.toNat.inj h)

theorem charsLe_total (a b : Str) : charsLe a b = true ∨ charsLe b a = true := by
  induction a generalizing b with
  | nil => left; rfl
  | cons x xs ih =>
    cases b with
    | nil => right; rfl
    | cons y ys =>
      rcases Nat.lt_trichotomy x.toNat y.toNat with h | h | h
      · left
        simp only [charsLe, if_pos h]
      · have h1 : ¬ x.toNat < y.toNat := by omega
        have h2 : ¬ y.toNat < x.toNat := by omega
        rcases ih ys with hle | hle
        · left
          simp only [charsLe, if_neg h1, if_neg h2]
          exact hle
        · right
          simp only [charsLe, if_neg h2, if_neg h1]
          exact hle
      · right
        simp only [charsLe, if_pos h]

theorem charsLe_antisymm : ∀ {a b : Str}, charsLe a b = true → charsLe b a = true → a = b
  | [], [], _, _ => rfl
  | [], _ :: _, _, h2 => by simp [charsLe] at h2
  | _ :: _, [], h1, _ => by simp [charsLe] at h1
  | x :: xs, y :: ys, h1, h2 => by
    rcases Nat.lt_trichotomy x.toNat y.toNat with h | h | h
    · simp only [charsLe, if_neg (show ¬ y.toNat < x.toNat by omega), if_pos h] at h2
      cases h2
    · have hn1 : ¬ x.toNat < y.toNat := by omega
      have hn2 : ¬ y.toNat < x.toNat := by omega
      simp only [charsLe, if_neg hn1, if_neg hn2] at h1 h2
      rw [char_eq_of_toNat h, charsLe_antisymm h1 h2]
    · simp only [charsLe, if_neg (show ¬ x.toNat < y.toNat by omega), if_pos h] at h1
      cases h1

theorem charsLe_trans : ∀ {a b c : Str},
    charsLe a b = true → charsLe b c = true → charsLe a c = true
  | [], _, _, _, _ => rfl
  | _ :: _, [], _, h1, _ => by simp [charsLe] at h1
  | _ :: _, _ :: _, [], _, h2 => by simp [charsLe] at h2
  | x :: xs, y :: ys, z :: zs, h1, h2 => by
    by_cases hxy1 : x.toNat < y.toNat
    · by_cases hyz1 : y.toNat < z.toNat
      · simp only [charsLe, if_pos (show x.toNat < z.toNat by omega)]
      · by_cases hzy : z.toNat < y.toNat
        · simp only [charsLe, if_neg hyz1, if_pos hzy] at h2
          cases h2
        · simp only [charsLe, if_pos (show x.toNat < z.toNat by omega)]
    · by_cases hyx : y.toNat < x.toNat
      · simp only [charsLe, if_neg hxy1, if_pos hyx] at h1
        cases h1
      · by_cases hyz1 : y.toNat < z.toNat
        · simp only [charsLe, if_pos (show x.toNat < z.toNat by omega)]
        · by_cases hzy : z.toNat < y.toNat
          · simp only [charsLe, if_neg hyz1, if_pos hzy] at h2
            cases h2
          · simp only [charsLe, if_neg hxy1, if_neg hyx] at h1
            simp only [charsLe, if_neg hyz1, if_neg hzy] at h2
            simp only [charsLe, if_neg (show ¬ x.toNat < z.toNat by omega),
              if_neg (show ¬ z.toNat < x.toNat by omega)]
            exact charsLe_trans h1 h2

/-- Order on dict items used by the canonical serialization: compare keys. -/
def KeyLe (p q : Str × Str) : Prop := charsLe p.1 q.1 = true

theorem insertPair_perm (p : Str × Str) : ∀ l : Msg, (insertPair p l).Perm (p :: l)
  | [] => List.Perm.refl _
  | q :: qs => by
    simp only [insertPair]
    split
    · exact List.Perm.refl _
    · exact ((insertPair_perm p qs).cons q).trans (List.Perm.swap p q qs)

theorem sortPairs_perm : ∀ l : Msg, (sortPairs l).Perm l
  | [] => List.Perm.refl _
  | p :: ps => by
    simp only [sortPairs]
    exact (insertPair_perm p (sortPairs ps)).trans ((sortPairs_perm ps).cons p)

theorem insertPair_sorted {p : Str × Str} : ∀ {l : Msg},
    l.Pairwise KeyLe → (insertPair p l).Pairwise KeyLe
  | [], _ => by simp [insertPair]
  | q :: qs, h => by
    obtain ⟨hq, hqs⟩ := List.pairwise_cons.mp h
    by_cases hle : charsLe p.1 q.1 = true
    · simp only [insertPair, if_pos hle]
      refine List.pairwise_cons.mpr ⟨?_, h⟩
      intro x hx
      rcases List.mem_cons.mp hx with rfl | hx
      · exact hle
      · exact charsLe_trans hle (hq x hx)
    · simp only [insertPair, if_neg hle]
      refine List.pairwise_cons.mpr ⟨?_, insertPair_sorted hqs⟩
      intro x hx
      have hx2 : x ∈ p :: qs := (insertPair_perm p qs).subset hx
      rcases List.mem_cons.mp hx2 with rfl | hx2
      · rcases charsLe_total x.1 q.1 with hc | hc
        · exact absurd hc hle
        · exact hc
      · exact hq x hx2

theorem sortPairs_sorted : ∀ l : Msg, (sortPairs l).Pairwise KeyLe
  | [] => List.Pairwise.nil
  | p :: ps => by
    simp only [sortPairs]
    exact insertPair_sorted (sortPairs_sorted ps)

theorem sorted_nodup_keys_perm_eq : ∀ {l1 l2 : Msg}, l1.Perm l2 →
    l1.Pairwise KeyLe → l2.Pairwise KeyLe → (l1.map Prod.fst).Nodup → l1 = l2
  | [], l2, h, _, _, _ => (List.perm_nil.mp h.symm).symm
  | a :: t1, [], h, _, _, _ => absurd (List.perm_nil.mp h) (by simp)
  | a :: t1, b :: t2, h, hs1, hs2, hn => by
    by_cases hab : a = b
    · subst hab
      have ht : t1.Perm t2 := h.cons_inv
      rw [sorted_nodup_keys_perm_eq ht (List.pairwise_cons.mp hs1).2
        (List.pairwise_cons.mp hs2).2 (by simpa using (List.nodup_cons.mp (by simpa using hn)).2)]
    · exfalso
      have hamem : a ∈ b :: t2 := h.subset (List.mem_cons_self a t1)
      have hat2 : a ∈ t2 := by
        rcases List.mem_cons.mp hamem with h1 | h1
        · exact absurd h1 hab
        · exact h1
      have hbmem : b ∈ a :: t1 := h.symm.subset (List.mem_cons_self b t2)
      have hbt1 : b ∈ t1 := by
        rcases List.mem_cons.mp hbmem with h1 | h1
        · exact absurd h1.symm hab
        · exact h1
      have hk1 : KeyLe a b := (List.pairwise_cons.mp hs1).1 b hbt1
      have hk2 : KeyLe b a := (List.pairwise_cons.mp hs2).1 a hat2
      have hk : a.1 = b.1 := charsLe_antisymm hk1 hk2
      have hnin : a.1 ∉ t1.map Prod.fst := (List.nodup_cons.mp (by simpa using hn)).1
      exact hnin (hk ▸ List.mem_map_of_mem Prod.fst hbt1)

theorem sortPairs_eq_of_perm {m1 m2 : Msg} (h : m1.Perm m2)
    (hn : (m1.map Prod.fst).Nodup) : sortPairs m1 = sortPairs m2 :=
  sorted_nodup_keys_perm_eq
    ((sortPairs_perm m1).trans (h.trans (sortPairs_perm m2).symm))
    (sortPairs_sorted m1) (sortPairs_sorted m2)
    (((sortPairs_perm m1).map Prod.fst).nodup_iff.mpr hn)

/-- Two messages carrying the same Python dict: same key-value pairs (in any
insertion order), keys distinct as in every dict. -/
def MsgEquiv (m1 m2 : Msg) : Prop := m1.Perm m2 ∧ (m1.map Prod.fst).Nodup

theorem keySrc_congr {msgs1 msgs2 : Messages}
    (h : List.Forall₂ MsgEquiv msgs1 msgs2) : keySrc msgs1 = keySrc msgs2 := by
  have hmap : msgs1.map serMsg = msgs2.map serMsg := by
    induction h with
    | nil => rfl
    | cons hm _ ih =>
      simp only [List.map_cons]
      rw [ih]
      congr 1
      unfold serMsg
      rw [sortPairs_eq_of_perm hm.1 hm.2]
  unfold keySrc
  rw [hmap]


/-! ### Claim C2 — canonical fingerprint: escape injectivity -/

/-- Numeric value of a lower-case hexadecimal digit (proof tool for the
injectivity of the `\\uXXXX` escapes). -/
def hexVal (c : Char) : Nat :=
  match c with
  | '0' => 0 | '1' => 1 | '2' => 2 | '3' => 3 | '4' => 4
  | '5' => 5 | '6' => 6 | '7' => 7 | '8' => 8 | '9' => 9
  | 'a' => 10 | 'b' => 11 | 'c' => 12 | 'd' => 13 | 'e' => 14
  | 'f' => 15 | _ => 0

theorem hexVal_hexDigit : ∀ n, n < 16 → hexVal (hexDigit n) = n := by decide

/-- Decoder for the one-character JSON escapes produced by `escChar`; a
left inverse used to prove `escChar` injective. -/
def escDecode : Str → Option (Char × Str)
  | [] => none
  | c :: rest =>
    if c = '\\' then
      match rest with
      | [] => none
      | d :: rest2 =>
        if d = '\x22' then some ('\x22', rest2)
        else if d = '\\' then some ('\\', rest2)
        else if d = 'n' then some ('\n', rest2)
        else if d = 't' then some ('\t', rest2)
        else if d = 'r' then some ('\r', rest2)
        else if d = 'b' then some ('\x08', rest2)
        else if d = 'f' then some ('\x0c', rest2)
        else if d = 'u' then
          match rest2 with
          | _ :: _ :: h3 :: h4 :: rest3 =>
            some (Char.ofNat (16 * hexVal h3 + hexVal h4), rest3)
          | _ => none
        else none
    else some (c, rest)

theorem char_ofNat_toNat (c : Char) : Char.ofNat c.toNat = c := by
  apply Char.ext
  have hv : c.toNat.isValidChar := c.valid
  simp only [Char.ofNat, hv, dif_pos, Char.ofNatAux]
  apply UInt32.toNat.inj
  simp [UInt32.toNat, Char.toNat]

theorem escDecode_escChar (c : Char) (rest : Str) :
    escDecode (escChar c ++ rest) = some (c, rest) := by
  unfold escChar
  by_cases h1 : c = '\x22'
  · subst h1; simp [escDecode]
  · rw [if_neg h1]
    by_cases h2 : c = '\\'
    · subst h2; simp [escDecode]
    · rw [if_neg h2]
      by_cases h3 : c = '\n'
      · subst h3; simp [escDecode]
      · rw [if_neg h3]
        by_cases h4 : c = '\t'
        · subst h4; simp [escDecode]
        · rw [if_neg h4]
          by_cases h5 : c = '\r'
          · subst h5; simp [escDecode]
          · rw [if_neg h5]
            by_cases h6 : c = '\x08'
            · subst h6; simp [escDecode]
            · rw [if_neg h6]
              by_cases h7 : c = '\x0c'
              · subst h7; simp [escDecode]
              · rw [if_neg h7]
                by_cases h8 : c.toNat < 32
                · rw [if_pos h8]
                  simp only [List.cons_append, List.nil_append, escDecode,
                    if_pos rfl, if_neg (by decide : ¬ ('u' : Char) = '\x22'),
                    if_neg (by decide : ¬ ('u' : Char) = '\\'),
                    if_neg (by decide : ¬ ('u' : Char) = 'n'),
                    if_neg (by decide : ¬ ('u' : Char) = 't'),
                    if_neg (by decide : ¬ ('u' : Char) = 'r'),
                    if_neg (by decide : ¬ ('u' : Char) = 'b'),
                    if_neg (by decide : ¬ ('u' : Char) = 'f'), if_pos rfl]
                  rw [hexVal_hexDigit _ (by omega), hexVal_hexDigit _ (by omega),
                    Nat.div_add_mod, char_ofNat_toNat]
                  simp
                · rw [if_neg h8]
                  simp only [List.cons_append, List.nil_append, escDecode]
                  rw [if_neg h2]

theorem escChar_inj {a b : Char} (h : escChar a = escChar b) : a = b := by
  have h1 := escDecode_escChar a []
  have h2 := escDecode_escChar b []
  rw [h, h2] at h1
  exact (Prod.mk.injEq .. ▸ Option.some.injEq .. ▸ h1).1.symm

theorem jsonEscape_append (u v : Str) :
    jsonEscape (u ++ v) = jsonEscape u ++ jsonEscape v := by
  induction u with
  | nil => rfl
  | cons c t ih =>
    show escChar c ++ jsonEscape (t ++ v) = escChar c ++ jsonEscape t ++ jsonEscape v
    rw [ih, List.append_assoc]

theorem jsonEscape_single_diff {u v : Str} {x y : Char} (hxy : x ≠ y) :
    jsonEscape (u ++ x :: v) ≠ jsonEscape (u ++ y :: v) := by
  intro he
  rw [jsonEscape_append, jsonEscape_append] at he
  simp only [jsonEscape] at he
  have h1 := List.append_cancel_left he
  have h2 := List.append_cancel_right h1
  exact hxy (escChar_inj h2)


/-! ### Claim C2 — canonical fingerprint: one-character content differences -/

/-- Relation between two pair lists that agree everywhere except that one
position holds `(k, v)` on the left and `(k, v')` on the right. -/
inductive OneDiffAt (k v v' : Str) : Msg → Msg → Prop
  | here (t : Msg) : OneDiffAt k v v' ((k, v) :: t) ((k, v') :: t)
  | there (p : Str × Str) {t t' : Msg} :
      OneDiffAt k v v' t t' → OneDiffAt k v v' (p :: t) (p :: t')

theorem OneDiffAt.insert_congr {k v v' : Str} {l l' : Msg}
    (h : OneDiffAt k v v' l l') (p : Str × Str) :
    OneDiffAt k v v' (insertPair p l) (insertPair p l') := by
  induction h with
  | here t =>
    simp only [insertPair]
    by_cases hle : charsLe p.1 k = true
    · rw [if_pos hle, if_pos hle]
      exact .there p (.here t)
    · rw [if_neg hle, if_neg hle]
      exact .here (insertPair p t)
  | there q hrec ih =>
    simp only [insertPair]
    by_cases hle : charsLe p.1 q.1 = true
    · rw [if_pos hle, if_pos hle]
      exact .there p (.there q hrec)
    · rw [if_neg hle, if_neg hle]
      exact .there q ih

theorem OneDiffAt.insert_self {k v v' : Str} : ∀ l : Msg,
    OneDiffAt k v v' (insertPair (k, v) l) (insertPair (k, v') l)
  | [] => by
    simp only [insertPair]
    exact .here []
  | q :: qs => by
    simp only [insertPair]
    by_cases hle : charsLe k q.1 = true
    · rw [if_pos hle, if_pos hle]
      exact .here (q :: qs)
    · rw [if_neg hle, if_neg hle]
      exact .there q (insert_self qs)

theorem OneDiffAt.sort_congr {k v v' : Str} {m m' : Msg}
    (h : OneDiffAt k v v' m m') :
    OneDiffAt k v v' (sortPairs m) (sortPairs m') := by
  induction h with
  | here t =>
    simp only [sortPairs]
    exact OneDiffAt.insert_self (sortPairs t)
  | there q hrec ih =>
    simp only [sortPairs]
    exact ih.insert_congr q

theorem sepJoinTail_shape {k v v' : Str} {t t' : Msg} (sep : Str)
    (h : OneDiffAt k v v' t t') :
    ∃ A B, sepJoinTail sep (t.map serPair) = A ++ jsonQuote v ++ B ∧
      sepJoinTail sep (t'.map serPair) = A ++ jsonQuote v' ++ B := by
  induction h with
  | here tt =>
    refine ⟨sep ++ jsonQuote k ++ [':', ' '], sepJoinTail sep (tt.map serPair), ?_, ?_⟩ <;>
      simp [sepJoinTail, serPair, List.append_assoc]
  | there p hrec ih =>
    obtain ⟨A, B, h1, h2⟩ := ih
    refine ⟨sep ++ serPair p ++ A, B, ?_, ?_⟩
    · simp only [List.map_cons, sepJoinTail, h1]
      simp [List.append_assoc]
    · simp only [List.map_cons, sepJoinTail, h2]
      simp [List.append_assoc]

theorem sepJoin_shape {k v v' : Str} {t t' : Msg} (sep : Str)
    (h : OneDiffAt k v v' t t') :
    ∃ A B, sepJoin sep (t.map serPair) = A ++ jsonQuote v ++ B ∧
      sepJoin sep (t'.map serPair) = A ++ jsonQuote v' ++ B := by
  cases h with
  | here tt =>
    refine ⟨jsonQuote k ++ [':', ' '], sepJoinTail sep (tt.map serPair), ?_, ?_⟩ <;>
      simp [sepJoin, serPair, List.append_assoc]
  | there p hrec =>
    obtain ⟨A, B, h1, h2⟩ := sepJoinTail_shape sep hrec
    refine ⟨serPair p ++ A, B, ?_, ?_⟩
    · simp only [List.map_cons, sepJoin, h1]
      simp [List.append_assoc]
    · simp only [List.map_cons, sepJoin, h2]
      simp [List.append_assoc]

theorem serMsg_shape {k v v' : Str} {m m' : Msg} (h : OneDiffAt k v v' m m') :
    ∃ A B, serMsg m = A ++ jsonQuote v ++ B ∧ serMsg m' = A ++ jsonQuote v' ++ B := by
  obtain ⟨A, B, h1, h2⟩ := sepJoin_shape [',', ' '] h.sort_congr
  refine ⟨'\x7b' :: A, B ++ ['\x7d'], ?_, ?_⟩
  · simp [serMsg, h1, List.append_assoc]
  · simp [serMsg, h2, List.append_assoc]

theorem sepJoinTail_append (sep : Str) (as bs : List Str) :
    sepJoinTail sep (as ++ bs) = sepJoinTail sep as ++ sepJoinTail sep bs := by
  induction as with
  | nil => rfl
  | cons a as ih =>
    show sep ++ a ++ sepJoinTail sep (as ++ bs) =
      sep ++ a ++ sepJoinTail sep as ++ sepJoinTail sep bs
    rw [ih]
    simp [List.append_assoc]

theorem sepJoin_middle (sep : Str) (xs ys : List Str) :
    ∃ C D, ∀ mid : Str, sepJoin sep (xs ++ mid :: ys) = C ++ mid ++ D := by
  cases xs with
  | nil =>
    refine ⟨[], sepJoinTail sep ys, fun mid => ?_⟩
    simp [sepJoin]
  | cons x xs' =>
    refine ⟨x ++ sepJoinTail sep xs' ++ sep, sepJoinTail sep ys, fun mid => ?_⟩
    show x ++ sepJoinTail sep (xs' ++ mid :: ys) = _
    rw [sepJoinTail_append]
    simp [sepJoinTail, List.append_assoc]

theorem keySrc_single_diff {pre post : List Msg} {K Ktl : Msg} {k u v : Str}
    {x y : Char} (hxy : x ≠ y) :
    keySrc (pre ++ (K ++ ((k, u ++ x :: v) :: Ktl)) :: post) ≠
    keySrc (pre ++ (K ++ ((k, u ++ y :: v) :: Ktl)) :: post) := by
  have hod : OneDiffAt k (u ++ x :: v) (u ++ y :: v)
      (K ++ ((k, u ++ x :: v) :: Ktl)) (K ++ ((k, u ++ y :: v) :: Ktl)) := by
    induction K with
    | nil => exact .here Ktl
    | cons q K' ih => exact .there q ih
  obtain ⟨A, B, h1, h2⟩ := serMsg_shape hod
  obtain ⟨C, D, hCD⟩ := sepJoin_middle [',', ' '] (pre.map serMsg) (post.map serMsg)
  intro he
  unfold keySrc at he
  rw [List.map_append, List.map_cons, List.map_append, List.map_cons] at he
  rw [hCD (serMsg (K ++ ((k, u ++ x :: v) :: Ktl))),
    hCD (serMsg (K ++ ((k, u ++ y :: v) :: Ktl))), h1, h2] at he
  injection he with _ he2
  have he3 := List.append_cancel_right he2
  simp only [List.append_assoc] at he3
  have he4 := List.append_cancel_left (List.append_cancel_left he3)
  simp only [← List.append_assoc] at he4
  have he5 := List.append_cancel_right he4
  unfold jsonQuote at he5
  injection he5 with _ he6
  have he7 := List.append_cancel_right he6
  have he8 := List.append_cancel_right he7
  exact jsonEscape_single_diff hxy he8

/-- C2: the fingerprint is the cryptographic hash of the canonical
serialization.  First half: two message lists carrying the same role/content
dicts — whatever the key insertion order inside each dict — have equal
fingerprints.  Second half: two message lists that differ in one single
character of one value have different canonical serializations, hence
different fingerprints whenever the hash itself is collision-free on them
(`hashF` injective is the idealization of the cryptographic hash). -/
theorem c2_fingerprint_canonical (hashF : Str → Str) :
    (∀ msgs1 msgs2 : Messages, List.Forall₂ MsgEquiv msgs1 msgs2 →
      fingerprint hashF msgs1 = fingerprint hashF msgs2) ∧
    (Function.Injective hashF →
      ∀ (pre post : List Msg) (K Ktl : Msg) (k u v : Str) (x y : Char), x ≠ y →
        fingerprint hashF (pre ++ (K ++ ((k, u ++ x :: v) :: Ktl)) :: post) ≠
        fingerprint hashF (pre ++ (K ++ ((k, u ++ y :: v) :: Ktl)) :: post)) := by
  constructor
  · intro msgs1 msgs2 h
    unfold fingerprint
    rw [keySrc_congr h]
  · intro hinj pre post K Ktl k u v x y hxy he
    exact keySrc_single_diff hxy (hinj he)

theorem c2_fingerprint_canonical_witness :
    (fingerprint id [[("role".data, "user".data), ("content".data, "hi".data)]] =
      fingerprint id [[("content".data, "hi".data), ("role".data, "user".data)]]) ∧
    fingerprint id [[("content".data, "ax".data)]] ≠
      fingerprint id [[("content".data, "ay".data)]] := by
  constructor
  · exact (c2_fingerprint_canonical id).1 _ _
      (List.Forall₂.cons ⟨by decide, by decide⟩ List.Forall₂.nil)
  · exact (c2_fingerprint_canonical id).2 Function.injective_id
      [] [] [] [] "content".data "a".data [] 'x' 'y' (by decide)


end ResumeAgent
